import Mathlib

set_option maxRecDepth 8192
set_option maxHeartbeats 1000000

/-!
# Verification of the ELO Javadoc scraper (`scraper.py`)

A shallow embedding of the scraper's data model and operations, together
with theorems settling the specification claims about it.

Modelling conventions:

* HTML pages are modelled as a tree type `Node`; the markup parser
  (BeautifulSoup with `html.parser`) is an external collaborator, so pages
  arrive at the scraping functions already parsed.  The collaborator
  queries used by the code (`find`, `find_all`, `find_next`, `.text`,
  `.string`, truthiness of found tags, `decompose`) are modelled as
  functions over `Node` below.
* Network fetches (`requests.Session.get` + `raise_for_status`) are
  modelled as an environment `Env : String → Option Node`: `none` models a
  transport/HTTP failure (a raised `requests.exceptions.RequestException`),
  `some soup` a successfully fetched and parsed page.
* Machine strings are Lean `String`s; the character-level pipeline of
  `clean_html` is defined on `List Char` and lifted.
* Python's `text.encode('utf-8', errors='ignore').decode('utf-8')` is the
  identity on the well-formed Unicode strings Lean's `String` represents,
  and is therefore not reproduced as a separate step.
* The one genuinely exceptional control path in the source (reading the
  local variable `class_table` when no branch assigned it, which raises
  `UnboundLocalError`) is modelled with `Except String`.
-/

namespace EloJavadoc

/-! ## Character-level helpers for `clean_html` (source lines 26-42)

`clean_html` does, in order: parse the input string, drop `script`/`style`
subtrees, take `get_text()`, then `splitlines()`, `strip()` each line,
split each line on two spaces, `strip()` each piece, drop empty pieces and
rejoin with `"\n"`.  The helpers below model Python's `str.splitlines`,
`str.strip` and `str.split("  ")` on `List Char`. -/

/-- The whitespace characters stripped by Python's `str.strip()`. -/
def pyIsSpace (c : Char) : Bool :=
  [' ', '\t', '\n', '\r', '\x0B', '\x0C',
   '\x1C', '\x1D', '\x1E', '\x1F', '\x85', '\xA0',
   ' ', ' ', ' ', ' ', ' ', ' ', ' ',
   ' ', ' ', ' ', ' ', ' ',
   ' ', ' ', ' ', ' ', '　'].contains c

/-- The line-boundary characters recognised by Python's `str.splitlines()`
(the two-character boundary `"\r\n"` is handled in `pySplitlines`). -/
def isLineBreak (c : Char) : Bool :=
  ['\n', '\r', '\x0B', '\x0C', '\x1C', '\x1D', '\x1E',
   '\x85', ' ', ' '].contains c

/-- Python `str.splitlines()`: split at every line boundary, `"\r\n"`
counting as a single boundary; a trailing boundary does not produce a
trailing empty line, and the empty string has no lines. -/
def pySplitlines : List Char → List (List Char)
  | [] => []
  | '\r' :: '\n' :: rest => [] :: pySplitlines rest
  | c :: rest =>
    if isLineBreak c then
      [] :: pySplitlines rest
    else
      match pySplitlines rest with
      | [] => [[c]]
      | l :: ls => (c :: l) :: ls

/-- Python `str.lstrip()`. -/
def pyLstrip (xs : List Char) : List Char := xs.dropWhile pyIsSpace

/-- Python `str.rstrip()` (`List.rdropWhile` is
`(xs.reverse.dropWhile p).reverse`). -/
def pyRstrip (xs : List Char) : List Char :=
  List.rdropWhile pyIsSpace xs

/-- Python `str.strip()`. -/
def pyStrip (xs : List Char) : List Char := pyRstrip (pyLstrip xs)

/-- Python `str.split("  ")`: split at every non-overlapping occurrence of
two consecutive spaces, scanning left to right. -/
def splitDS : List Char → List (List Char)
  | [] => [[]]
  | ' ' :: ' ' :: rest => [] :: splitDS rest
  | c :: rest =>
    match splitDS rest with
    | [] => [[c]]
    | l :: ls => (c :: l) :: ls

/-- The whitespace-normalisation pipeline of `clean_html` (source lines
37-39): the cleaned, non-empty chunks in order. -/
def cleanChunks (xs : List Char) : List (List Char) :=
  (pySplitlines xs).flatMap
    (fun line => ((splitDS (pyStrip line)).map pyStrip).filter (· ≠ []))

/-- Python `'\n'.join(...)`. -/
def joinNL : List (List Char) → List Char
  | [] => []
  | [l] => l
  | l :: ls => l ++ '\n' :: joinNL ls

/-- The `'\n'.join(chunk for chunk in chunks if chunk)` over the chunks. -/
def cleanChars (xs : List Char) : List Char :=
  joinNL (cleanChunks xs)

/-- No two consecutive spaces anywhere (no piece of a
`split("  ")` result contains the separator). -/
def noDS : List Char → Bool
  | [] => true
  | [_] => true
  | c :: d :: rest => !(c == ' ' && d == ' ') && noDS (d :: rest)

/-- The shape of every chunk `cleanChars` emits: non-empty, free of line
boundaries, fixed by `strip()`, and free of double spaces.  `cleanChars`
is the identity on a `joinNL` of such chunks, which is what makes the
whitespace pipeline idempotent. -/
def GoodChunk (l : List Char) : Prop :=
  l ≠ [] ∧ (∀ c ∈ l, isLineBreak c = false) ∧ pyStrip l = l ∧ noDS l = true

/-- One step of HTML character-reference decoding as performed by the
`html.parser` collaborator when it parses text content: the named
references occurring in this development are decoded left to right, other
text is kept verbatim. -/
def unescapeChars : List Char → List Char
  | '&' :: 'a' :: 'm' :: 'p' :: ';' :: rest => '&' :: unescapeChars rest
  | '&' :: 'l' :: 't' :: ';' :: rest => '<' :: unescapeChars rest
  | '&' :: 'g' :: 't' :: ';' :: rest => '>' :: unescapeChars rest
  | '&' :: 'q' :: 'u' :: 'o' :: 't' :: ';' :: rest => '"' :: unescapeChars rest
  | c :: rest => c :: unescapeChars rest
  | [] => []

/-- The `clean_html` (source lines 26-42) applied to an element-free string,
as the scraper does for `clean_html(str(package_link.text))`: parsing the
string decodes character references once (the `script`/`style` removal
finds no elements in element-free input), `get_text()` returns the decoded
text, and the whitespace pipeline then runs; the final
`encode('utf-8','ignore').decode('utf-8')` is the identity on well-formed
Unicode. -/
def clean_html (s : String) : String :=
  ⟨cleanChars (unescapeChars s.data)⟩

/-! ## The markup-tree collaborator

Pages are navigable trees.  Only the attributes the scraper ever queries
are modelled: the class list (`class` is multi-valued in HTML), `id`, and
`href`. -/

/-- The attributes of an element that the scraper queries. -/
structure Attrs where
  classes : List String := []
  idAttr : Option String := none
  href : Option String := none
deriving Repr, DecidableEq

mutual

/-- A node of the parsed markup tree: an element with a tag name,
attributes and children, or a text node. -/
inductive Node where
  | elem (tag : String) (attrs : Attrs) (children : NodeList)
  | text (s : String)

/-- A sequence of sibling nodes (a separate inductive so that all
traversals are structurally recursive and compute inside the kernel). -/
inductive NodeList where
  | nil
  | cons (hd : Node) (tl : NodeList)

end

/-- Build a `NodeList` from a list. -/
def NodeList.ofList : List Node → NodeList
  | [] => .nil
  | c :: cs => .cons c (NodeList.ofList cs)

/-- Look up the `i`-th sibling. -/
def NodeList.get? : NodeList → Nat → Option Node
  | .nil, _ => none
  | .cons c _, 0 => some c
  | .cons _ cs, i + 1 => NodeList.get? cs i

mutual

/-- The `element.get_text()`: the concatenation of all text descendants in
document order, with no separator. -/
def getText : Node → String
  | .text s => s
  | .elem _ _ cs => getTextL cs

/-- The `getText` over a list of children, in order. -/
def getTextL : NodeList → String
  | .nil => ""
  | .cons c cs => getText c ++ getTextL cs

end

mutual

/-- The `for script in soup(["script", "style"]): script.decompose()`
(source lines 30-31): remove every `script`/`style` subtree. -/
def stripScriptStyle : Node → Node
  | .text s => .text s
  | .elem t a cs => .elem t a (stripScriptStyleL cs)

/-- The `stripScriptStyle` over a list of children. -/
def stripScriptStyleL : NodeList → NodeList
  | .nil => .nil
  | .cons (.text s) rest => .cons (.text s) (stripScriptStyleL rest)
  | .cons (.elem t a cs) rest =>
    if t = "script" || t = "style" then stripScriptStyleL rest
    else .cons (.elem t a (stripScriptStyleL cs)) (stripScriptStyleL rest)

end

mutual

/-- The paths (child-index sequences) of all proper descendants of a node,
in document (pre-order) order. -/
def prePaths : Node → List (List Nat)
  | .text _ => []
  | .elem _ _ cs => prePathsL 0 cs

/-- The `prePaths` over a list of children starting at child index `i`. -/
def prePathsL : Nat → NodeList → List (List Nat)
  | _, .nil => []
  | i, .cons c cs => ([i] :: (prePaths c).map (i :: ·)) ++ prePathsL (i + 1) cs

end

/-- The node reached from `n` by following a path of child indices. -/
def nodeAt? : Node → List Nat → Option Node
  | n, [] => some n
  | .elem _ _ cs, i :: p =>
    match cs.get? i with
    | some c => nodeAt? c p
    | none => none
  | .text _, _ :: _ => none

/-- The node at a path, defaulting to an empty text node (only ever used
at paths produced by the search functions, where the node exists). -/
def nodeAtD (root : Node) (q : List Nat) : Node := (nodeAt? root q).getD (.text "")

/-- The paths of the proper descendants of the node at `base`, in document
order, as paths from `root`. -/
def subPaths (root : Node) (base : List Nat) : List (List Nat) :=
  match nodeAt? root base with
  | some n => (prePaths n).map (base ++ ·)
  | none => []

/-- The `element.find(...)` (with the element at path `base`): the first
proper descendant satisfying the predicate, in document order. -/
def findP (root : Node) (base : List Nat) (p : Node → Bool) : Option (List Nat) :=
  (subPaths root base).find? (fun q => p (nodeAtD root q))

/-- The `element.find_all(...)`: every proper descendant satisfying the
predicate, in document order. -/
def findAllP (root : Node) (base : List Nat) (p : Node → Bool) : List (List Nat) :=
  (subPaths root base).filter (fun q => p (nodeAtD root q))

/-- The `element.find_next(...)` (with the element at path `q`): the first
node strictly after `q` in the whole document's pre-order — descendants of
`q` included, and *not* limited to the subtree the original search ran
in — that satisfies the predicate. -/
def findNextP (root : Node) (q : List Nat) (p : Node → Bool) : Option (List Nat) :=
  (((prePaths root).dropWhile (· ≠ q)).drop 1).find? (fun r => p (nodeAtD root r))

/-- The `soup.find(...)` searching a detached subtree: first matching proper
descendant, as a node. -/
def findDesc (n : Node) (p : Node → Bool) : Option Node :=
  (findP n [] p).map (nodeAtD n)

/-- The `soup.find_all(...)` searching a detached subtree, as nodes. -/
def findAllDesc (n : Node) (p : Node → Bool) : List Node :=
  (findAllP n [] p).map (nodeAtD n)

/-- The `tag.string`: the contained string if the node is a text node or an
element with exactly one child that itself has a `.string`; `None`
otherwise. -/
def nodeString : Node → Option String
  | .text s => some s
  | .elem _ _ (.cons c .nil) => nodeString c
  | .elem _ _ _ => none

/-- Tag-name match, e.g. `find('dd')`: elements only. -/
def isElemTag (tag : String) (n : Node) : Bool :=
  match n with
  | .elem t _ _ => t = tag
  | .text _ => false

/-- Tag-and-class match, e.g. `find('div', class_='block')`: the `class`
attribute is multi-valued, so matching is membership in the class list. -/
def isElemTC (tag cls : String) (n : Node) : Bool :=
  match n with
  | .elem t a _ => t = tag && a.classes.contains cls
  | .text _ => false

/-- Tag-and-id match, e.g. `find('div', id='class-summary')`. -/
def isElemTagId (tag idv : String) (n : Node) : Bool :=
  match n with
  | .elem t a _ => t = tag && a.idAttr == some idv
  | .text _ => false

/-- The `element.text` (an alias of `get_text()` in the collaborator). -/
def nodeText (n : Node) : String := getText n

/-- The `href` attribute, when the node is an element carrying one
(`'href' in link.attrs`). -/
def nodeHref : Node → Option String
  | .elem _ a _ => a.href
  | .text _ => none

/-- Python's `pat in s` substring test, on character lists. -/
def hasSub (pat : List Char) : List Char → Bool
  | [] => pat.isEmpty
  | x :: rest => pat.isPrefixOf (x :: rest) || hasSub pat rest

/-- Python's `pat in s` substring test, on strings. -/
def strContains (s pat : String) : Bool := hasSub pat.data s.data

/-- The `clean_html(str(element))` (the form used for every element-valued
field): `str(element)` serialises the subtree with character data
re-escaped, and re-parsing that string reproduces the same subtree, so the
composite removes `script`/`style` subtrees, takes the text, and runs the
whitespace pipeline. -/
def cleanNode (n : Node) : String :=
  ⟨cleanChars (getText (stripScriptStyle n)).data⟩

/-! ## The fetch collaborator -/

/-- A fetch environment: `session.get(url)` followed by
`raise_for_status()` and parsing.  `none` models a raised
`requests.exceptions.RequestException` (transport or HTTP failure),
`some soup` a successfully fetched and parsed page. -/
abbrev Env := String → Option Node

/-- Python's `s.startswith(pre)`. -/
def pyStartswith (s pre : String) : Bool := pre.data.isPrefixOf s.data

/-- Python's `s.endswith(suf)`. -/
def pyEndswith (s suf : String) : Bool := suf.data.isSuffixOf s.data

/-- Model of `urllib.parse.urljoin(base, rel)` restricted to the reference
shapes exercised in this development: an absolute `http(s)` target is kept
as is, any other target is resolved against the directory of `base`. -/
def urljoin (base rel : String) : String :=
  if pyStartswith rel "http" then rel
  else ⟨(base.data.reverse.dropWhile (· ≠ '/')).reverse⟩ ++ rel

/-! ## Data model -/

/-- One constructor record (source lines 82-86). -/
structure ConstructorDoc where
  signature : String
  description : String
  parameters : List String
deriving Repr, DecidableEq

/-- One method record (source lines 111-118). -/
structure MethodDoc where
  name : String
  signature : String
  description : String
  parameters : List String
  returns : String
  overrides : String
deriving Repr, DecidableEq

/-- The per-class record built by `scrape_class_doc` (source lines
53-59). -/
structure ClassDoc where
  description : String
  inheritance : String
  constructors : List ConstructorDoc
  methods : List MethodDoc
  package : String
deriving Repr, DecidableEq

/-- One entry of a package's class list (source lines 222-225). -/
structure ClassEntry where
  name : String
  documentation : ClassDoc
deriving Repr, DecidableEq

/-- The aggregate built by `scrape_javadoc`: package display name to class
entries, in insertion order (a Python `dict`). -/
abbrev Documentation := List (String × List ClassEntry)

/-! ## `scrape_class_doc` (source lines 44-156) -/

/-- The body of the constructor loop (source lines 81-105). -/
def extractConstructor (root : Node) (cp : List Nat) : ConstructorDoc :=
  { signature :=
      match findP root cp (isElemTC "div" "member-signature") with
      | some p => cleanNode (nodeAtD root p)
      | none => ""
    description :=
      match findP root cp (isElemTC "div" "block") with
      | some p => cleanNode (nodeAtD root p)
      | none => ""
    parameters :=
      ((findAllP root cp (isElemTag "dd")).map
        (fun p => cleanNode (nodeAtD root p))).filter (· ≠ "") }

/-- The `method.find('span', string=label)` then
`returns.find_next('dd')` (source lines 141-148): the label span is
searched inside the method's detail section, but the following `dd` is the
first one in whole-document order. -/
def labelledDd (root : Node) (mp : List Nat) (label : String) : String :=
  match findP root mp (fun n => isElemTag "span" n && nodeString n == some label) with
  | some sp =>
    match findNextP root sp (isElemTag "dd") with
    | some dp => cleanNode (nodeAtD root dp)
    | none => ""
  | none => ""

/-- The body of the method loop (source lines 110-150).  The method name
is only extracted when a signature element was found (lines 121-126). -/
def extractMethod (root : Node) (mp : List Nat) : MethodDoc :=
  let sig := findP root mp (isElemTC "div" "member-signature")
  { name :=
      match sig with
      | some _ =>
        match findP root mp (isElemTag "h3") with
        | some hp => cleanNode (nodeAtD root hp)
        | none => ""
      | none => ""
    signature :=
      match sig with
      | some p => cleanNode (nodeAtD root p)
      | none => ""
    description :=
      match findP root mp (isElemTC "div" "block") with
      | some p => cleanNode (nodeAtD root p)
      | none => ""
    parameters :=
      ((findAllP root mp (isElemTag "dd")).map
        (fun p => cleanNode (nodeAtD root p))).filter (· ≠ "")
    returns := labelledDd root mp "Returns:"
    overrides := labelledDd root mp "Overrides:" }

/-- The extraction part of `scrape_class_doc` (source lines 53-152),
applied to a successfully fetched page. -/
def extractClassDoc (root : Node) : ClassDoc :=
  { package :=
      match findP root [] (isElemTC "div" "sub-title") with
      | some pp =>
        match findP root pp (isElemTag "a") with
        | some ap => clean_html (nodeText (nodeAtD root ap))
        | none => ""
      | none => ""
    inheritance :=
      match findP root [] (isElemTC "div" "inheritance") with
      | some p => cleanNode (nodeAtD root p)
      | none => ""
    description :=
      match findP root [] (isElemTC "div" "block") with
      | some p => cleanNode (nodeAtD root p)
      | none => ""
    constructors :=
      match findP root [] (isElemTC "section" "constructor-details") with
      | some sp => (findAllP root sp (isElemTC "section" "detail")).map (extractConstructor root)
      | none => []
    methods :=
      match findP root [] (isElemTC "section" "method-details") with
      | some sp => (findAllP root sp (isElemTC "section" "detail")).map (extractMethod root)
      | none => [] }

/-- The `scrape_class_doc` (source lines 44-156): a transport/HTTP failure is
caught and reported as `None`; a fetched page is always extracted. -/
def scrape_class_doc (env : Env) (classUrl : String) : Option ClassDoc :=
  (env classUrl).map extractClassDoc

/-- The method detail sections the extractor iterates over (source lines
108-110). -/
def methodPaths (root : Node) : List (List Nat) :=
  match findP root [] (isElemTC "section" "method-details") with
  | some sp => findAllP root sp (isElemTC "section" "detail")
  | none => []

/-- Following the spec's words for the `Returns:`/`Overrides:` rule: *all*
the label spans of a method detail block whose exact string is the label,
in document order — the code must capture the dd following the *first* of
them. -/
def labelSpans (root : Node) (mp : List Nat) (label : String) : List (List Nat) :=
  (subPaths root mp).filter
    (fun q => isElemTag "span" (nodeAtD root q) && nodeString (nodeAtD root q) == some label)

/-! ## `scrape_package_doc` (source lines 158-237) -/

/-- The `get_javadoc_format` (source lines 168-174). -/
def get_javadoc_format (soup : Node) : String :=
  if (findDesc soup (isElemTC "div" "table-tabs")).isSome then "modern"
  else if (findDesc soup (isElemTC "table" "summary-table")).isSome then "legacy"
  else "unknown"

/-- The legacy-format class-table lookup chain (source lines 187-194).
`'summary' in str(t.get('class', ''))`: the pattern contains no quote,
comma or space, so it occurs in the printed class list exactly when it
occurs inside one of the class tokens. -/
def legacyClassTable (soup : Node) : Option Node :=
  match findDesc soup (isElemTC "table" "summary-table") with
  | some t => some t
  | none =>
    match findDesc soup (isElemTC "table" "summary") with
    | some t => some t
    | none =>
      (findAllDesc soup (isElemTag "table")).find?
        (fun t =>
          match t with
          | .elem _ a _ => a.classes.any (fun c => strContains c "summary")
          | .text _ => false)

/-- The local variable `class_table` of `scrape_package_doc` (source lines
179-194).  The outer `none` is the one control path on which no branch
assigns it: format `modern` with no `div` of id `class-summary` on the
page — reading the variable then raises `UnboundLocalError`. -/
def packageTable (soup : Node) : Option (Option Node) :=
  if get_javadoc_format soup = "modern" then
    match findDesc soup (isElemTagId "div" "class-summary") with
    | some d => some (some d)
    | none => none
  else
    some (legacyClassTable soup)

/-- Legacy link enumeration (source lines 206-213): the anchor inside each
table row's first-column `th`, rows without one skipped. -/
def legacyLinks (tbl : Node) : List Node :=
  (findAllDesc tbl (isElemTag "tr")).filterMap (fun row =>
    match findDesc row (isElemTC "th" "col-first") with
    | some fc => findDesc fc (isElemTag "a")
    | none => none)

/-- The class-entry loop of `scrape_package_doc` (source lines 202-225):
enumerate links by format, skip anchors without `href`, resolve each
target against the package URL, and keep an entry for every class whose
page produced a `ClassDoc`, in anchor order. -/
def tableEntries (env : Env) (pkgUrl : String) (fmt : String) (tbl : Node) : List ClassEntry :=
  let links := if fmt = "modern" then findAllDesc tbl (isElemTag "a") else legacyLinks tbl
  links.filterMap (fun link =>
    match nodeHref link with
    | none => none
    | some h =>
      match scrape_class_doc env (urljoin pkgUrl h) with
      | none => none
      | some doc => some ⟨nodeText link, doc⟩)

/-- The class entries a package page yields (empty when the class table
was absent or the `class_table` variable was never assigned). -/
def packageEntries (env : Env) (pkgUrl : String) (soup : Node) : List ClassEntry :=
  match packageTable soup with
  | some (some tbl) => tableEntries env pkgUrl (get_javadoc_format soup) tbl
  | _ => []

/-- The `scrape_package_doc` (source lines 158-237).  The `try` block catches
only `requests.exceptions.RequestException` (a fetch failure, `.ok none`);
the `UnboundLocalError` of the unassigned `class_table` escapes it
(`.error`).  When the loop ran, `classes if classes else None` is
returned. -/
def scrape_package_doc (env : Env) (pkgUrl : String) :
    Except String (Option (List ClassEntry)) :=
  match env pkgUrl with
  | none => .ok none
  | some soup =>
    match packageTable soup with
    | none => .error "UnboundLocalError: cannot access local variable class_table"
    | some none => .ok none
    | some (some tbl) =>
      let classes := tableEntries env pkgUrl (get_javadoc_format soup) tbl
      .ok (if classes.isEmpty then none else some classes)

/-! ## `scrape_javadoc` (source lines 239-297) -/

/-- The `documentation[package_name] = classes` on a Python `dict`: replace in
place if the key exists, else append. -/
def dictInsert (d : Documentation) (k : String) (v : List ClassEntry) : Documentation :=
  if d.any (fun pr => pr.1 = k) then d.map (fun pr => if pr.1 = k then (k, v) else pr)
  else d ++ [(k, v)]

/-- The package-summary anchors of the root page (source lines 266-267):
every anchor whose `href` contains `package-summary.html` as a
substring. -/
def packageLinks (soup : Node) : List Node :=
  (findAllDesc soup (isElemTag "a")).filter
    (fun a => strContains ((nodeHref a).getD "") "package-summary.html")

/-- The body of the package loop of `scrape_javadoc` (source lines
275-285): anchors without `href` are skipped; a package whose extraction
yields classes is inserted under its display name; an exception from
`scrape_package_doc` propagates. -/
def crawlStep (env : Env) (baseUrl : String) (acc : Documentation) (link : Node) :
    Except String Documentation :=
  match nodeHref link with
  | none => Except.ok acc
  | some h =>
    match scrape_package_doc env (urljoin baseUrl h) with
    | .error e => Except.error e
    | .ok none => Except.ok acc
    | .ok (some classes) =>
      if classes.isEmpty then Except.ok acc
      else Except.ok (dictInsert acc (nodeText link) classes)

/-- The `scrape_javadoc` (source lines 239-297).  A root fetch failure is
caught (`.ok none`); no package-summary anchors is `None`; each package is
scraped in discovery order and inserted only when it yielded classes; an
`UnboundLocalError` escaping `scrape_package_doc` is not caught by the
`except requests.exceptions.RequestException` handler and aborts the whole
crawl; an empty aggregate is returned as `None`. -/
def scrape_javadoc (env : Env) (baseUrl : String) : Except String (Option Documentation) :=
  match env baseUrl with
  | none => .ok none
  | some soup =>
    let links := packageLinks soup
    if links.isEmpty then .ok none
    else
      match links.foldlM (crawlStep env baseUrl) [] with
      | .error e => .error e
      | .ok doc => .ok (if doc.isEmpty then none else some doc)

/-! ## `save_markdown` (source lines 299-381) and the CLI file name

File writing is an external effect; `save_markdown` is modelled as the
string it writes. -/

/-- The package anchor of the table of contents (source line 310):
`package_name.lower().replace('.', '')`. -/
def packageAnchor (p : String) : String :=
  ⟨(p.data.map Char.toLower).filter (· ≠ '.')⟩

/-- The class anchor of the table of contents (source line 312):
`f"{package_name.lower().replace('.', '')}-{class_name.lower()}"`. -/
def classAnchor (p c : String) : String :=
  packageAnchor p ++ "-" ++ ⟨c.data.map Char.toLower⟩

/-- The anchor string computed inside the body loop (source line 322).
It is assigned to the local variable `anchor` and never written to the
output. -/
def bodyComputedAnchor (p c : String) : String :=
  packageAnchor p ++ "-" ++ ⟨c.data.map Char.toLower⟩

/-- The table-of-contents lines for one package (source lines 309-313). -/
def tocForPackage (pr : String × List ClassEntry) : String :=
  "- [" ++ pr.1 ++ "](#" ++ packageAnchor pr.1 ++ ")\n"
  ++ String.join (pr.2.map (fun ci => "  - [" ++ ci.name ++ "](#" ++ classAnchor pr.1 ci.name ++ ")\n"))

/-- One constructor of the body (source lines 342-354). -/
def renderConstructor (c : ConstructorDoc) : String :=
  "```java\n" ++ c.signature ++ "\n```\n\n"
  ++ (if c.description ≠ "" then c.description ++ "\n\n" else "")
  ++ (if c.parameters ≠ [] then
        "**Parameters:**\n\n" ++ String.join (c.parameters.map (fun p => "- " ++ p ++ "\n")) ++ "\n"
      else "")

/-- One method of the body (source lines 359-379). -/
def renderMethod (m : MethodDoc) : String :=
  "#### " ++ m.name ++ "\n\n"
  ++ "```java\n" ++ m.signature ++ "\n```\n\n"
  ++ (if m.description ≠ "" then m.description ++ "\n\n" else "")
  ++ (if m.parameters ≠ [] then
        "**Parameters:**\n\n" ++ String.join (m.parameters.map (fun p => "- " ++ p ++ "\n")) ++ "\n"
      else "")
  ++ (if m.returns ≠ "" then "**Returns:** " ++ m.returns ++ "\n\n" else "")
  ++ (if m.overrides ≠ "" then "**Overrides:** " ++ m.overrides ++ "\n\n" else "")

/-- One class of the body (source lines 321-381).  The heading is written
without any anchor; the `anchor` computed at source line 322
(`bodyComputedAnchor`) is unused there. -/
def renderClass (ci : ClassEntry) : String :=
  "## Class " ++ ci.name ++ "\n\n"
  ++ (if ci.documentation.package ≠ "" then "**Package:** " ++ ci.documentation.package ++ "\n\n" else "")
  ++ (if ci.documentation.inheritance ≠ "" then
        "**Inheritance:**\n\n" ++ ci.documentation.inheritance ++ "\n\n"
      else "")
  ++ (if ci.documentation.description ≠ "" then
        "### Description\n\n" ++ ci.documentation.description ++ "\n\n"
      else "")
  ++ (if ci.documentation.constructors ≠ [] then
        "### Constructors\n\n" ++ String.join (ci.documentation.constructors.map renderConstructor)
      else "")
  ++ (if ci.documentation.methods ≠ [] then
        "### Methods\n\n" ++ String.join (ci.documentation.methods.map renderMethod)
      else "")
  ++ "---\n\n"

/-- One package of the body (source lines 318-319). -/
def renderPackage (pr : String × List ClassEntry) : String :=
  "# Package " ++ pr.1 ++ "\n\n" ++ String.join (pr.2.map renderClass)

/-- The `save_markdown` (source lines 299-381), as the full text written to
the output file. -/
def save_markdown (doc : Documentation) : String :=
  "# ELO Javadoc Documentation\n\n## Table of Contents\n\n"
  ++ String.join (doc.map tocForPackage)
  ++ "\n---\n\n"
  ++ String.join (doc.map renderPackage)

/-- The `output_file` default of `save_markdown` (source lines 301-302):
`javadoc.md` when no name is passed. -/
def resolve_output_file (o : Option String) : String := o.getD "javadoc.md"

/-- Python's `s.rstrip('/')`. -/
def rstripSlash (s : String) : String :=
  ⟨(s.data.reverse.dropWhile (· = '/')).reverse⟩

/-- Python's `s.split(sep)` for a single-character separator, on character
lists. -/
def splitOnChar (c : Char) : List Char → List (List Char)
  | [] => [[]]
  | x :: rest =>
    if x = c then [] :: splitOnChar c rest
    else
      match splitOnChar c rest with
      | [] => [[x]]
      | l :: ls => (x :: l) :: ls

/-- Python's `s.split(sep)` for a single-character separator. -/
def pySplit (s : String) (c : Char) : List String :=
  (splitOnChar c s.data).map (fun l => ⟨l⟩)

/-- The CLI's base-URL normalisation (source lines 395-399). -/
def normalize_base_url (arg : String) : String :=
  let b := rstripSlash arg
  let b := if !pyStartswith b "http" then "https://forum.elo.com/javadoc/" ++ b else b
  if !pyEndswith b "/" then b ++ "/" else b

/-- The output file name derived by the CLI (source lines 404-405):
`f"javadoc.{'.'.join(p for p in url_parts[4:] if p)}.md"` over
`base_url.rstrip('/').split('/')`. -/
def output_file_name (baseUrl : String) : String :=
  "javadoc." ++ String.intercalate "." (((pySplit (rstripSlash baseUrl) '/').drop 4).filter (· ≠ "")) ++ ".md"

/-- The spec's words for the URL pieces the file name joins: for an
`http(s)://host/...` URL, `split('/')` puts the scheme, the empty piece
between the two slashes, and the host at indices 0-2, so the path segments
after the host are the components from index 3 on. -/
def specPathSegments (baseUrl : String) : List String :=
  (pySplit (rstripSlash baseUrl) '/').drop 3

/-- The file name as the claim derives it: the fixed literal `javadoc.`,
then the '.'-joined non-empty path segments of the root URL after its
host, then `.md`. -/
def specFileName (baseUrl : String) : String :=
  "javadoc." ++ String.intercalate "." ((specPathSegments baseUrl).filter (· ≠ "")) ++ ".md"

/-! ## Concrete pages and environments used by witnesses and
counterexamples -/

/-- An element with no attributes. -/
def el (t : String) (cs : List Node) : Node := .elem t {} (NodeList.ofList cs)

/-- An element with one class. -/
def elc (t cls : String) (cs : List Node) : Node :=
  .elem t { classes := [cls] } (NodeList.ofList cs)

/-- An anchor element with an `href`. -/
def ela (href : String) (cs : List Node) : Node :=
  .elem "a" { href := some href } (NodeList.ofList cs)

/-- An element with an `id`. -/
def eli (t idv : String) (cs : List Node) : Node :=
  .elem t { idAttr := some idv } (NodeList.ofList cs)

/-- A class page with none of the optional structures. -/
def bareClassPage : Node := el "html" []

/-- A `ClassDoc` with every field at its empty default. -/
def emptyClassDoc : ClassDoc :=
  { description := "", inheritance := "", constructors := [], methods := [], package := "" }

/-- A modern-format package page: a `table-tabs` container is present but
no element has id `class-summary`. -/
def modernNoSummaryPage : Node :=
  el "html" [elc "div" "table-tabs" [.text "tabs"]]

/-- A package page carrying both a `table-tabs` container and a
`summary-table`. -/
def bothFormatsPage : Node :=
  el "html" [elc "div" "table-tabs" [.text "tabs"], elc "table" "summary-table" [.text "s"]]

/-- A legacy-format package page listing one class `Foo`. -/
def legacyOneClassPage : Node :=
  el "html" [
    elc "table" "summary-table" [
      el "tr" [elc "th" "col-first" [ela "Foo.html" [.text "Foo"]]]]]

/-- A legacy-format package page whose only class anchor has no `href`. -/
def legacyNoHrefPage : Node :=
  el "html" [
    elc "table" "summary-table" [
      el "tr" [elc "th" "col-first" [el "a" [.text "X"]]]]]

/-- A class page for `Foo` with only a description block. -/
def fooClassPage : Node :=
  el "html" [elc "div" "block" [.text "Foo desc"]]

/-- A class page on which one method's `Returns:` label span has no `dd`
inside its own detail section, while the next method's section contains
one. -/
def crossSectionPage : Node :=
  el "html" [
    elc "section" "method-details" [
      elc "section" "detail" [
        el "h3" [.text "m1"],
        elc "div" "member-signature" [.text "void m1()"],
        el "dl" [el "dt" [el "span" [.text "Returns:"]]]],
      elc "section" "detail" [
        el "h3" [.text "m2"],
        elc "div" "member-signature" [.text "int m2()"],
        el "dl" [
          el "dt" [el "span" [.text "Overrides:"]],
          el "dd" [.text "later"]]]]]

/-- A class page whose single method detail block carries two `Returns:`
label spans, each followed by a `dd`. -/
def twoReturnsPage : Node :=
  el "html" [
    elc "section" "method-details" [
      elc "section" "detail" [
        el "h3" [.text "m"],
        elc "div" "member-signature" [.text "int m()"],
        el "dl" [
          el "dt" [el "span" [.text "Returns:"]],
          el "dd" [.text "first value"],
          el "dt" [el "span" [.text "Returns:"]],
          el "dd" [.text "second value"]]]]]

/-- A root page linking two package summaries. -/
def rootTwoPkgsPage : Node :=
  el "html" [
    ela "p1/package-summary.html" [.text "p1"],
    ela "p2/package-summary.html" [.text "p2"]]

/-- A root page linking one package summary. -/
def rootOnePkgPage : Node :=
  el "html" [ela "pa/package-summary.html" [.text "pkg.a"]]

/-- A root page with anchors but none matching `package-summary.html`. -/
def rootNoPkgsPage : Node :=
  el "html" [ela "index.html" [.text "idx"]]

/-- A root page whose only package link leads to the crashing modern
page. -/
def rootOnePkgCrashPage : Node :=
  el "html" [ela "p1/package-summary.html" [.text "p1"]]

/-- A root page whose only package link leads to a package page that
yields no class (its only anchor has no `href`). -/
def rootNoYieldPage : Node :=
  el "html" [ela "nohref/package-summary.html" [.text "pkg.n"]]

/-- Environment in which the only package page is a modern page without a
`class-summary` container: no package yields any class, and extraction of
that one package raises. -/
def envCrashSolo : Env := fun u =>
  if u = "https://y/" then some rootOnePkgCrashPage
  else if u = "https://y/p1/package-summary.html" then some modernNoSummaryPage
  else none

/-- Environment for the crash scenario: the first package page is modern
without a `class-summary` container, the sibling is a healthy legacy
page. -/
def envCrash : Env := fun u =>
  if u = "https://x/" then some rootTwoPkgsPage
  else if u = "https://x/p1/package-summary.html" then some modernNoSummaryPage
  else if u = "https://x/p2/package-summary.html" then some legacyOneClassPage
  else if u = "https://x/p2/Foo.html" then some fooClassPage
  else none

/-- Environment for the happy path: one package, one class, plus a second
root page with no package anchors. -/
def envHappy : Env := fun u =>
  if u = "https://h/" then some rootOnePkgPage
  else if u = "https://h/pa/package-summary.html" then some legacyOneClassPage
  else if u = "https://h/pa/Foo.html" then some fooClassPage
  else if u = "https://h/empty/" then some rootNoPkgsPage
  else if u = "https://h/nohref/package-summary.html" then some legacyNoHrefPage
  else if u = "https://h/pa/Bare.html" then some bareClassPage
  else if u = "https://h/noyield.html" then some rootNoYieldPage
  else none

/-- The class entry `envHappy` produces for `Foo`. -/
def fooEntry : ClassEntry :=
  { name := "Foo", documentation := { emptyClassDoc with description := "Foo desc" } }

/-- Occurrence count of a pattern in a character list (occurrences at
every position, used to compare table-of-contents and body output). -/
def countOcc (pat : List Char) : List Char → Nat
  | [] => if pat.isEmpty then 1 else 0
  | x :: rest => (if pat.isPrefixOf (x :: rest) then 1 else 0) + countOcc pat rest

/-- Occurrence count of a pattern in a string. -/
def strCount (s pat : String) : Nat := countOcc pat.data s.data

/-! ## Helper lemmas -/

/-- The `find?` returns the head of the filtered list: "first match wins". -/
theorem find?_eq_head?_filter {α : Type} (p : α → Bool) (l : List α) :
    l.find? p = (l.filter p).head? := by
  induction l with
  | nil => rfl
  | cons x xs ih =>
    by_cases h : p x
    · rw [List.find?_cons_of_pos _ h, List.filter_cons_of_pos h, List.head?_cons]
    · rw [List.find?_cons_of_neg _ h, List.filter_cons_of_neg h, ih]

/-- Reduction of `pySplitlines` at a line-boundary character other than a
`"\r\n"` pair. -/
theorem pySplitlines_cons_break (c : Char) (rest : List Char)
    (hcr : ¬(c = '\r' ∧ ∃ t, rest = '\n' :: t)) (hb : isLineBreak c = true) :
    pySplitlines (c :: rest) = [] :: pySplitlines rest := by
  rw [pySplitlines.eq_def]
  split
  · rename_i heq; cases heq
  · rename_i t heq
    injection heq with h1 h2
    exact absurd ⟨h1, t, h2⟩ hcr
  · rename_i c' rest' hne heq
    injection heq with h1 h2
    subst h1; subst h2
    rw [if_pos hb]

/-- Reduction of `pySplitlines` at an ordinary character. -/
theorem pySplitlines_cons_other (c : Char) (rest : List Char)
    (hb : isLineBreak c = false) :
    pySplitlines (c :: rest)
      = match pySplitlines rest with
        | [] => [[c]]
        | l :: ls => (c :: l) :: ls := by
  rw [pySplitlines.eq_def]
  split
  · rename_i heq; cases heq
  · rename_i t heq
    injection heq with h1 h2
    rw [h1] at hb
    simp [isLineBreak] at hb
  · rename_i c' rest' hne heq
    injection heq with h1 h2
    subst h1; subst h2
    rw [if_neg (by simp [hb])]

/-- The `pySplitlines` yields no line exactly on the empty string. -/
theorem pySplitlines_eq_nil_iff (l : List Char) :
    pySplitlines l = [] ↔ l = [] := by
  induction l using pySplitlines.induct with
  | case1 => simp [pySplitlines]
  | case2 rest ih => simp [pySplitlines]
  | case3 c rest hne hb ih =>
    rw [pySplitlines_cons_break c rest (by rintro ⟨h1, t, h2⟩; exact hne t h1 h2) hb]
    simp
  | case4 c rest hne hb hsp ih =>
    rw [pySplitlines_cons_other c rest (by simpa using hb), hsp]
    simp
  | case5 c rest hne hb l0 ls hsp ih =>
    rw [pySplitlines_cons_other c rest (by simpa using hb), hsp]
    simp

/-- Reduction of `splitDS` at a character that does not open a
double-space separator. -/
theorem splitDS_cons_other (c : Char) (rest : List Char)
    (h : ¬(c = ' ' ∧ ∃ t, rest = ' ' :: t)) :
    splitDS (c :: rest)
      = match splitDS rest with
        | [] => [[c]]
        | l :: ls => (c :: l) :: ls := by
  rw [splitDS.eq_def]
  split
  · rename_i heq; cases heq
  · rename_i t heq
    injection heq with h1 h2
    exact absurd ⟨h1, t, h2⟩ h
  · rename_i c' rest' hne heq
    injection heq with h1 h2
    subst h1; subst h2
    rfl

/-- The `splitDS` always yields at least one piece. -/
theorem splitDS_ne_nil (xs : List Char) : splitDS xs ≠ [] := by
  induction xs using splitDS.induct with
  | case1 => simp [splitDS]
  | case2 rest ih => simp [splitDS]
  | case3 c rest hne hsp ih =>
    rw [splitDS_cons_other c rest (by rintro ⟨h1, t, h2⟩; exact hne t h1 h2), hsp]
    simp
  | case4 c rest hne l0 ls hsp ih =>
    rw [splitDS_cons_other c rest (by rintro ⟨h1, t, h2⟩; exact hne t h1 h2), hsp]
    simp

/-- Reduction of `unescapeChars` at a character other than `&`. -/
theorem unescapeChars_cons_other (c : Char) (rest : List Char) (hc : c ≠ '&') :
    unescapeChars (c :: rest) = c :: unescapeChars rest := by
  rw [unescapeChars.eq_def]
  split
  · rename_i heq; injection heq with h1 _; exact absurd h1 hc
  · rename_i heq; injection heq with h1 _; exact absurd h1 hc
  · rename_i heq; injection heq with h1 _; exact absurd h1 hc
  · rename_i heq; injection heq with h1 _; exact absurd h1 hc
  · rename_i c' rest' hne heq
    injection heq with h1 h2
    subst h1; subst h2
    rfl
  · rename_i heq; cases heq

/-- Every character of every line of `pySplitlines xs` is a character of
`xs`. -/
theorem mem_of_mem_pySplitlines (xs : List Char) :
    ∀ l ∈ pySplitlines xs, ∀ c ∈ l, c ∈ xs := by
  induction xs using pySplitlines.induct with
  | case1 => intro l hl; simp [pySplitlines] at hl
  | case2 rest ih =>
    intro l hl c hc
    rw [show pySplitlines ('\r' :: '\n' :: rest) = [] :: pySplitlines rest from rfl] at hl
    rcases List.mem_cons.mp hl with h | h
    · subst h; simp at hc
    · exact List.mem_cons_of_mem _ (List.mem_cons_of_mem _ (ih l h c hc))
  | case3 c0 rest hne hb ih =>
    intro l hl c hc
    rw [pySplitlines_cons_break c0 rest (by rintro ⟨h1, t, h2⟩; exact hne t h1 h2) hb] at hl
    rcases List.mem_cons.mp hl with h | h
    · subst h; simp at hc
    · exact List.mem_cons_of_mem _ (ih l h c hc)
  | case4 c0 rest hne hb hsp ih =>
    intro l hl c hc
    rw [pySplitlines_cons_other c0 rest (by simpa using hb), hsp] at hl
    simp only [List.mem_singleton] at hl
    subst hl
    simp only [List.mem_singleton] at hc
    subst hc
    exact List.mem_cons_self _ _
  | case5 c0 rest hne hb l0 ls hsp ih =>
    intro l hl c hc
    rw [pySplitlines_cons_other c0 rest (by simpa using hb), hsp] at hl
    rcases List.mem_cons.mp hl with h | h
    · subst h
      rcases List.mem_cons.mp hc with h2 | h2
      · subst h2; exact List.mem_cons_self _ _
      · exact List.mem_cons_of_mem _
          (ih l0 (by rw [hsp]; exact List.mem_cons_self _ _) c h2)
    · exact List.mem_cons_of_mem _
        (ih l (by rw [hsp]; exact List.mem_cons_of_mem _ h) c hc)

/-- No line of `pySplitlines xs` contains a line-boundary character. -/
theorem break_free_of_mem_pySplitlines (xs : List Char) :
    ∀ l ∈ pySplitlines xs, ∀ c ∈ l, isLineBreak c = false := by
  induction xs using pySplitlines.induct with
  | case1 => intro l hl; simp [pySplitlines] at hl
  | case2 rest ih =>
    intro l hl c hc
    rw [show pySplitlines ('\r' :: '\n' :: rest) = [] :: pySplitlines rest from rfl] at hl
    rcases List.mem_cons.mp hl with h | h
    · subst h; simp at hc
    · exact ih l h c hc
  | case3 c0 rest hne hb ih =>
    intro l hl c hc
    rw [pySplitlines_cons_break c0 rest (by rintro ⟨h1, t, h2⟩; exact hne t h1 h2) hb] at hl
    rcases List.mem_cons.mp hl with h | h
    · subst h; simp at hc
    · exact ih l h c hc
  | case4 c0 rest hne hb hsp ih =>
    intro l hl c hc
    rw [pySplitlines_cons_other c0 rest (by simpa using hb), hsp] at hl
    simp only [List.mem_singleton] at hl
    subst hl
    simp only [List.mem_singleton] at hc
    subst hc
    simpa using hb
  | case5 c0 rest hne hb l0 ls hsp ih =>
    intro l hl c hc
    rw [pySplitlines_cons_other c0 rest (by simpa using hb), hsp] at hl
    rcases List.mem_cons.mp hl with h | h
    · subst h
      rcases List.mem_cons.mp hc with h2 | h2
      · subst h2; simpa using hb
      · exact ih l0 (by rw [hsp]; exact List.mem_cons_self _ _) c h2
    · exact ih l (by rw [hsp]; exact List.mem_cons_of_mem _ h) c hc

/-- Every character of every piece of `splitDS xs` is a character of
`xs`. -/
theorem mem_of_mem_splitDS (xs : List Char) :
    ∀ l ∈ splitDS xs, ∀ c ∈ l, c ∈ xs := by
  induction xs using splitDS.induct with
  | case1 => intro l hl c hc; simp [splitDS] at hl; subst hl; simp at hc
  | case2 rest ih =>
    intro l hl c hc
    rw [show splitDS (' ' :: ' ' :: rest) = [] :: splitDS rest from rfl] at hl
    rcases List.mem_cons.mp hl with h | h
    · subst h; simp at hc
    · exact List.mem_cons_of_mem _ (List.mem_cons_of_mem _ (ih l h c hc))
  | case3 c0 rest hne hsp ih =>
    intro l hl c hc
    rw [splitDS_cons_other c0 rest (by rintro ⟨h1, t, h2⟩; exact hne t h1 h2), hsp] at hl
    simp only [List.mem_singleton] at hl
    subst hl
    simp only [List.mem_singleton] at hc
    subst hc
    exact List.mem_cons_self _ _
  | case4 c0 rest hne l0 ls hsp ih =>
    intro l hl c hc
    rw [splitDS_cons_other c0 rest (by rintro ⟨h1, t, h2⟩; exact hne t h1 h2), hsp] at hl
    rcases List.mem_cons.mp hl with h | h
    · subst h
      rcases List.mem_cons.mp hc with h2 | h2
      · subst h2; exact List.mem_cons_self _ _
      · exact List.mem_cons_of_mem _
          (ih l0 (by rw [hsp]; exact List.mem_cons_self _ _) c h2)
    · exact List.mem_cons_of_mem _
        (ih l (by rw [hsp]; exact List.mem_cons_of_mem _ h) c hc)

/-- The first piece of `splitDS xs` is empty or starts with the first
character of `xs`. -/
theorem splitDS_head_eq (xs : List Char) :
    ∀ r rs, splitDS xs = r :: rs → r = [] ∨ r.head? = xs.head? := by
  induction xs using splitDS.induct with
  | case1 =>
    intro r rs h
    rw [show splitDS [] = [[]] from rfl] at h
    injection h with h1 _
    exact Or.inl h1.symm
  | case2 rest ih =>
    intro r rs h
    rw [show splitDS (' ' :: ' ' :: rest) = [] :: splitDS rest from rfl] at h
    injection h with h1 _
    exact Or.inl h1.symm
  | case3 c0 rest hne hsp ih =>
    intro r rs h
    rw [splitDS_cons_other c0 rest (by rintro ⟨h1, t, h2⟩; exact hne t h1 h2), hsp] at h
    injection h with h1 _
    subst h1
    exact Or.inr rfl
  | case4 c0 rest hne l0 ls hsp ih =>
    intro r rs h
    rw [splitDS_cons_other c0 rest (by rintro ⟨h1, t, h2⟩; exact hne t h1 h2), hsp] at h
    injection h with h1 _
    subst h1
    exact Or.inr rfl

/-- No piece of `splitDS xs` contains two consecutive spaces. -/
theorem noDS_of_mem_splitDS (xs : List Char) :
    ∀ l ∈ splitDS xs, noDS l = true := by
  induction xs using splitDS.induct with
  | case1 => intro l hl; simp [splitDS] at hl; subst hl; rfl
  | case2 rest ih =>
    intro l hl
    rw [show splitDS (' ' :: ' ' :: rest) = [] :: splitDS rest from rfl] at hl
    rcases List.mem_cons.mp hl with h | h
    · subst h; rfl
    · exact ih l h
  | case3 c0 rest hne hsp ih =>
    intro l hl
    rw [splitDS_cons_other c0 rest (by rintro ⟨h1, t, h2⟩; exact hne t h1 h2), hsp] at hl
    simp only [List.mem_singleton] at hl
    subst hl
    rfl
  | case4 c0 rest hne l0 ls hsp ih =>
    intro l hl
    rw [splitDS_cons_other c0 rest (by rintro ⟨h1, t, h2⟩; exact hne t h1 h2), hsp] at hl
    rcases List.mem_cons.mp hl with h | h
    · subst h
      cases l0 with
      | nil => rfl
      | cons d t =>
        have hnd : noDS (d :: t) = true :=
          ih (d :: t) (by rw [hsp]; exact List.mem_cons_self _ _)
        have hd0 : (d :: t).head? = rest.head? := by
          rcases splitDS_head_eq rest (d :: t) ls hsp with h0 | h0
          · cases h0
          · exact h0
        have hcd : ¬(c0 = ' ' ∧ d = ' ') := by
          rintro ⟨hc1, hd1⟩
          subst hc1
          subst hd1
          cases rest with
          | nil => simp at hd0
          | cons e t2 =>
            simp only [List.head?_cons, Option.some.injEq] at hd0
            exact hne t2 rfl (by rw [← hd0])
        show noDS (c0 :: d :: t) = true
        rw [show noDS (c0 :: d :: t) = (!(c0 == ' ' && d == ' ') && noDS (d :: t)) from rfl]
        rw [hnd]
        simp only [Bool.and_true, Bool.not_eq_true', Bool.and_eq_false_iff]
        rcases Decidable.em (c0 = ' ') with hc | hc
        · right
          rw [beq_eq_false_iff_ne]
          intro hd1
          exact hcd ⟨hc, hd1⟩
        · left
          rw [beq_eq_false_iff_ne]
          exact hc
    · exact ih l (by rw [hsp]; exact List.mem_cons_of_mem _ h)

/-- The `noDS` says exactly that two consecutive spaces occur nowhere. -/
theorem noDS_iff_no_sep (l : List Char) :
    noDS l = true ↔ ¬ [' ', ' '] <:+: l := by
  induction l with
  | nil =>
    constructor
    · intro _ h
      have := h.length_le
      simp at this
    · intro _
      rfl
  | cons c rest ih =>
    cases rest with
    | nil =>
      constructor
      · intro _ h
        have := h.length_le
        simp at this
      · intro _
        rfl
    | cons d t =>
      rw [show noDS (c :: d :: t) = (!(c == ' ' && d == ' ') && noDS (d :: t)) from rfl]
      rw [List.infix_cons_iff, List.cons_prefix_cons]
      rw [Bool.and_eq_true, Bool.not_eq_true', Bool.and_eq_false_iff]
      constructor
      · intro h hcontra
        rcases hcontra with ⟨hc, hpre⟩ | hinf
        · rw [List.cons_prefix_cons] at hpre
          rcases h.1 with h1 | h1
          · rw [beq_eq_false_iff_ne] at h1; exact h1 hc.symm
          · rw [beq_eq_false_iff_ne] at h1; exact h1 hpre.1.symm
        · exact (ih.mp h.2) hinf
      · intro h
        obtain ⟨hA, hB⟩ := not_or.mp h
        refine ⟨?_, ih.mpr hB⟩
        by_cases hc : c = ' '
        · by_cases hd : d = ' '
          · exfalso
            apply hA
            refine ⟨hc.symm, ?_⟩
            rw [List.cons_prefix_cons]
            exact ⟨hd.symm, List.nil_prefix⟩
          · right; rw [beq_eq_false_iff_ne]; exact hd
        · left; rw [beq_eq_false_iff_ne]; exact hc

/-- The `noDS` is inherited by infixes. -/
theorem noDS_mono {l m : List Char} (h : l <:+: m) (hm : noDS m = true) :
    noDS l = true := by
  rw [noDS_iff_no_sep] at *
  exact fun hi => hm (hi.trans h)

/-- The `strip()` shortens from the two ends only: its result is an infix. -/
theorem pyStrip_part (xs : List Char) : pyStrip xs <:+: xs := by
  unfold pyStrip pyRstrip pyLstrip
  have h1 := List.rdropWhile_prefix pyIsSpace (List.dropWhile pyIsSpace xs)
  have h2 : List.dropWhile pyIsSpace xs <:+ xs := List.dropWhile_suffix pyIsSpace
  exact h1.isInfix.trans h2.isInfix

/-- The `strip()` is idempotent. -/
theorem pyStrip_idem (xs : List Char) : pyStrip (pyStrip xs) = pyStrip xs := by
  unfold pyStrip pyRstrip pyLstrip
  have h1 : List.dropWhile pyIsSpace
      (List.rdropWhile pyIsSpace (List.dropWhile pyIsSpace xs))
      = List.rdropWhile pyIsSpace (List.dropWhile pyIsSpace xs) := by
    rw [List.dropWhile_eq_self_iff]
    intro hl
    have hpre := List.rdropWhile_prefix pyIsSpace (List.dropWhile pyIsSpace xs)
    have hlen : 0 < (List.dropWhile pyIsSpace xs).length :=
      Nat.lt_of_lt_of_le hl hpre.length_le
    have hnot := List.dropWhile_get_zero_not pyIsSpace xs hlen
    simp only [List.get_eq_getElem] at hnot ⊢
    rw [hpre.getElem hl]
    exact hnot
  rw [h1, List.rdropWhile_idempotent]

/-- A piece without two consecutive spaces is not split further. -/
theorem splitDS_of_noDS (l : List Char) (h : noDS l = true) : splitDS l = [l] := by
  induction l with
  | nil => rfl
  | cons c rest ih =>
    have hne : ¬(c = ' ' ∧ ∃ t, rest = ' ' :: t) := by
      rintro ⟨hc, t, ht⟩
      subst hc
      subst ht
      rw [show noDS (' ' :: ' ' :: t) = (!(' ' == ' ' && ' ' == ' ') && noDS (' ' :: t)) from rfl]
        at h
      simp at h
    rw [splitDS_cons_other c rest hne]
    have hrest : noDS rest = true := by
      cases rest with
      | nil => rfl
      | cons d t =>
        rw [show noDS (c :: d :: t) = (!(c == ' ' && d == ' ') && noDS (d :: t)) from rfl] at h
        rw [Bool.and_eq_true] at h
        exact h.2
    rw [ih hrest]

/-- The `splitlines()` of a single boundary-free non-empty line. -/
theorem pySplitlines_single (l : List Char) (h0 : l ≠ [])
    (hb : ∀ c ∈ l, isLineBreak c = false) : pySplitlines l = [l] := by
  induction l with
  | nil => exact absurd rfl h0
  | cons c rest ih =>
    rw [pySplitlines_cons_other c rest (hb c (List.mem_cons_self _ _))]
    cases rest with
    | nil => rfl
    | cons d t =>
      have hr : pySplitlines (d :: t) = [d :: t] :=
        ih (by simp) (fun x hx => hb x (List.mem_cons_of_mem _ hx))
      rw [hr]

/-- The `splitlines()` after appending a newline and a tail: the boundary-free
prefix becomes the first line. -/
theorem pySplitlines_append (l t : List Char)
    (hb : ∀ c ∈ l, isLineBreak c = false) :
    pySplitlines (l ++ '\n' :: t) = l :: pySplitlines t := by
  induction l with
  | nil =>
    rw [List.nil_append]
    rw [pySplitlines_cons_break '\n' t (by rintro ⟨h1, _, _⟩; cases h1) rfl]
  | cons c l' ih =>
    rw [List.cons_append]
    rw [pySplitlines_cons_other c (l' ++ '\n' :: t) (hb c (List.mem_cons_self _ _))]
    rw [ih (fun x hx => hb x (List.mem_cons_of_mem _ hx))]

/-- The `splitlines()` inverts `'\n'.join` on non-empty boundary-free
lines. -/
theorem pySplitlines_joinNL (cs : List (List Char))
    (h1 : ∀ l ∈ cs, l ≠ [])
    (h2 : ∀ l ∈ cs, ∀ c ∈ l, isLineBreak c = false) :
    pySplitlines (joinNL cs) = cs := by
  induction cs with
  | nil => rfl
  | cons l cs' ih =>
    cases cs' with
    | nil =>
      rw [show joinNL [l] = l from rfl]
      exact pySplitlines_single l (h1 l (List.mem_cons_self _ _))
        (h2 l (List.mem_cons_self _ _))
    | cons l2 cs'' =>
      rw [show joinNL (l :: l2 :: cs'') = l ++ '\n' :: joinNL (l2 :: cs'') from rfl]
      rw [pySplitlines_append l (joinNL (l2 :: cs'')) (h2 l (List.mem_cons_self _ _))]
      rw [ih (fun x hx => h1 x (List.mem_cons_of_mem _ hx))
        (fun x hx => h2 x (List.mem_cons_of_mem _ hx))]

/-- Every chunk `cleanChunks` emits is a `GoodChunk`. -/
theorem cleanChunks_good (xs : List Char) : ∀ l ∈ cleanChunks xs, GoodChunk l := by
  intro l hl
  unfold cleanChunks at hl
  obtain ⟨line, hline, hl2⟩ := List.mem_flatMap.mp hl
  obtain ⟨hl3, hlne⟩ := List.mem_filter.mp hl2
  obtain ⟨piece, hpiece, hlp⟩ := List.mem_map.mp hl3
  subst hlp
  have hlne' : pyStrip piece ≠ [] := by simpa using hlne
  refine ⟨hlne', ?_, pyStrip_idem piece, ?_⟩
  · intro c hc
    exact break_free_of_mem_pySplitlines xs line hline c
      ((pyStrip_part line).subset
        (mem_of_mem_splitDS (pyStrip line) piece hpiece c
          ((pyStrip_part piece).subset hc)))
  · exact noDS_mono (pyStrip_part piece)
      (noDS_of_mem_splitDS (pyStrip line) piece hpiece)

/-- Every character of `cleanChunks` output comes from the input. -/
theorem mem_of_mem_cleanChunks (xs : List Char) :
    ∀ l ∈ cleanChunks xs, ∀ c ∈ l, c ∈ xs := by
  intro l hl c hc
  unfold cleanChunks at hl
  obtain ⟨line, hline, hl2⟩ := List.mem_flatMap.mp hl
  obtain ⟨hl3, _⟩ := List.mem_filter.mp hl2
  obtain ⟨piece, hpiece, hlp⟩ := List.mem_map.mp hl3
  subst hlp
  exact mem_of_mem_pySplitlines xs line hline c
    ((pyStrip_part line).subset
      (mem_of_mem_splitDS (pyStrip line) piece hpiece c
        ((pyStrip_part piece).subset hc)))

/-- The `cleanChunks` is the identity on a `'\n'.join` of good chunks. -/
theorem cleanChunks_joinNL (cs : List (List Char)) (h : ∀ l ∈ cs, GoodChunk l) :
    cleanChunks (joinNL cs) = cs := by
  unfold cleanChunks
  rw [pySplitlines_joinNL cs (fun l hl => (h l hl).1) (fun l hl => (h l hl).2.1)]
  induction cs with
  | nil => rfl
  | cons l cs' ih =>
    rw [List.flatMap_cons]
    have hg := h l (List.mem_cons_self _ _)
    rw [hg.2.2.1, splitDS_of_noDS l hg.2.2.2]
    rw [show List.map pyStrip [l] = [pyStrip l] from rfl, hg.2.2.1]
    have hfil : List.filter (fun x => decide (x ≠ [])) [l] = [l] := by
      simp [hg.1]
    rw [hfil]
    rw [ih (fun x hx => h x (List.mem_cons_of_mem _ hx))]
    rfl

/-- The whitespace pipeline of `clean_html` is idempotent. -/
theorem cleanChars_idem (xs : List Char) : cleanChars (cleanChars xs) = cleanChars xs := by
  unfold cleanChars
  rw [cleanChunks_joinNL (cleanChunks xs) (cleanChunks_good xs)]

/-- Every character of `cleanChars` output is a newline or an input
character. -/
theorem mem_cleanChars (xs : List Char) :
    ∀ c ∈ cleanChars xs, c = '\n' ∨ c ∈ xs := by
  intro c hc
  unfold cleanChars at hc
  have key : ∀ cs : List (List Char), (∀ l ∈ cs, ∀ x ∈ l, x ∈ xs) →
      c ∈ joinNL cs → c = '\n' ∨ c ∈ xs := by
    intro cs
    induction cs with
    | nil => intro _ hcc; simp [joinNL] at hcc
    | cons l cs' ih =>
      intro hmem hcc
      cases cs' with
      | nil =>
        rw [show joinNL [l] = l from rfl] at hcc
        exact Or.inr (hmem l (List.mem_cons_self _ _) c hcc)
      | cons l2 cs'' =>
        rw [show joinNL (l :: l2 :: cs'') = l ++ '\n' :: joinNL (l2 :: cs'') from rfl] at hcc
        rcases List.mem_append.mp hcc with h | h
        · exact Or.inr (hmem l (List.mem_cons_self _ _) c h)
        · rcases List.mem_cons.mp h with h2 | h2
          · exact Or.inl h2
          · exact ih (fun x hx => hmem x (List.mem_cons_of_mem _ hx)) h2
  exact key (cleanChunks xs) (mem_of_mem_cleanChunks xs) hc

/-- The `unescapeChars` is the identity on `&`-free text. -/
theorem unescapeChars_id (xs : List Char) (h : ∀ c ∈ xs, c ≠ '&') :
    unescapeChars xs = xs := by
  induction xs with
  | nil => rfl
  | cons c rest ih =>
    rw [unescapeChars_cons_other c rest (h c (List.mem_cons_self _ _))]
    rw [ih (fun x hx => h x (List.mem_cons_of_mem _ hx))]

/-! ## Claim theorems -/

/-- Claim C6: For every parsed page tree, `get_javadoc_format` returns
exactly one of the three labels `modern`/`legacy`/`unknown`; it returns
`modern` whenever a `table-tabs` container is present regardless of any
other markup, `legacy` when no `table-tabs` container is present but a
`summary-table` is, and `unknown` otherwise. -/
theorem claim_c6 (soup : Node) :
    (get_javadoc_format soup = "modern" ∨ get_javadoc_format soup = "legacy" ∨
        get_javadoc_format soup = "unknown")
      ∧ ((findDesc soup (isElemTC "div" "table-tabs")).isSome →
          get_javadoc_format soup = "modern")
      ∧ (findDesc soup (isElemTC "div" "table-tabs") = none →
          (findDesc soup (isElemTC "table" "summary-table")).isSome →
          get_javadoc_format soup = "legacy")
      ∧ (findDesc soup (isElemTC "div" "table-tabs") = none →
          findDesc soup (isElemTC "table" "summary-table") = none →
          get_javadoc_format soup = "unknown") := by
  unfold get_javadoc_format
  refine ⟨?_, ?_, ?_, ?_⟩
  · by_cases h1 : (findDesc soup (isElemTC "div" "table-tabs")).isSome
    · left; rw [if_pos h1]
    · by_cases h2 : (findDesc soup (isElemTC "table" "summary-table")).isSome
      · right; left; rw [if_neg h1, if_pos h2]
      · right; right; rw [if_neg h1, if_neg h2]
  · intro h1; rw [if_pos h1]
  · intro h1 h2
    rw [if_neg (by rw [h1]; simp), if_pos h2]
  · intro h1 h2
    rw [if_neg (by rw [h1]; simp), if_neg (by rw [h2]; simp)]

/-- Witness for C6 at three concrete pages, one per label. -/
theorem claim_c6_witness :
    get_javadoc_format bothFormatsPage = "modern"
      ∧ get_javadoc_format legacyOneClassPage = "legacy"
      ∧ get_javadoc_format bareClassPage = "unknown" :=
  ⟨(claim_c6 bothFormatsPage).2.1 (by decide),
   (claim_c6 legacyOneClassPage).2.2.1 rfl (by decide),
   (claim_c6 bareClassPage).2.2.2 rfl rfl⟩

/-- Claim C3: For every class page that fetches successfully, class-doc
extraction always returns a `ClassDoc` (never an exception), and each of
description, inheritance, package, constructors and methods defaults to
empty when its markup is absent. -/
theorem claim_c3 (env : Env) (url : String) (soup : Node)
    (h : env url = some soup) :
    scrape_class_doc env url = some (extractClassDoc soup)
      ∧ (findP soup [] (isElemTC "div" "sub-title") = none →
          (extractClassDoc soup).package = "")
      ∧ (findP soup [] (isElemTC "div" "inheritance") = none →
          (extractClassDoc soup).inheritance = "")
      ∧ (findP soup [] (isElemTC "div" "block") = none →
          (extractClassDoc soup).description = "")
      ∧ (findP soup [] (isElemTC "section" "constructor-details") = none →
          (extractClassDoc soup).constructors = [])
      ∧ (findP soup [] (isElemTC "section" "method-details") = none →
          (extractClassDoc soup).methods = []) := by
  refine ⟨by rw [scrape_class_doc, h]; rfl, ?_, ?_, ?_, ?_, ?_⟩ <;>
    intro hf <;> simp [extractClassDoc, hf]

/-- Witness for C3 at a concrete fetched page with none of the optional
structures. -/
theorem claim_c3_witness :
    scrape_class_doc envHappy "https://h/pa/Bare.html" = some (extractClassDoc bareClassPage)
      ∧ (extractClassDoc bareClassPage).package = ""
      ∧ (extractClassDoc bareClassPage).inheritance = ""
      ∧ (extractClassDoc bareClassPage).description = ""
      ∧ (extractClassDoc bareClassPage).constructors = []
      ∧ (extractClassDoc bareClassPage).methods = [] := by
  have C := claim_c3 envHappy "https://h/pa/Bare.html" bareClassPage rfl
  exact ⟨C.1, C.2.1 (by decide), C.2.2.1 (by decide), C.2.2.2.1 (by decide),
    C.2.2.2.2.1 (by decide), C.2.2.2.2.2 (by decide)⟩

/-- Claim C10: The `dd` captured for a `Returns:` label is the first `dd`
anywhere after the label span in whole-document order, not scoped to the
method's own detail section: on `crossSectionPage` the first method's
label span (path `[0,0,2,0,0]`) has no `dd` inside its own section (path
`[0,0]`), yet its returns field is the cleaned content of the second
section's `dd` (path `[0,1,2,1]`) rather than the empty string. -/
theorem claim_c10 :
    (extractClassDoc crossSectionPage).methods.map (fun m => m.returns) = ["later", ""]
      ∧ findP crossSectionPage [0, 0] (isElemTag "dd") = none
      ∧ findNextP crossSectionPage [0, 0, 2, 0, 0] (isElemTag "dd") = some [0, 1, 2, 1]
      ∧ nodeAtD crossSectionPage [0, 1, 2, 1] = el "dd" [.text "later"] :=
  ⟨by decide, rfl, rfl, rfl⟩

/-- Claim C1 (code bug): `save_markdown` evaluated at a one-package,
one-class `Documentation`: the table of contents emits the link targets
`#pkga` and `#pkga-foo`, but the body writes its headings as
`# Package pkg.a` / `## Class Foo` with no anchor attached — the anchor
string the body loop computes (`bodyComputedAnchor`, source line 322) is
identical to the TOC's derivation yet never written, so the only
occurrence of `pkga-foo` in the whole output is the TOC link itself. -/
theorem claim_c1_failing :
    save_markdown [("pkg.a", [⟨"Foo", emptyClassDoc⟩])]
        = "# ELO Javadoc Documentation\n\n## Table of Contents\n\n- [pkg.a](#pkga)\n  - [Foo](#pkga-foo)\n\n---\n\n# Package pkg.a\n\n## Class Foo\n\n---\n\n"
      ∧ strCount (save_markdown [("pkg.a", [⟨"Foo", emptyClassDoc⟩])]) "pkga-foo" = 1
      ∧ strCount (save_markdown [("pkg.a", [⟨"Foo", emptyClassDoc⟩])]) "(#pkga-foo)" = 1
      ∧ bodyComputedAnchor "pkg.a" "Foo" = "pkga-foo"
      ∧ classAnchor "pkg.a" "Foo" = bodyComputedAnchor "pkg.a" "Foo" := by
  refine ⟨rfl, by decide, by decide, by decide, rfl⟩

/-- Claim C2 (code bug): A modern-format package page carrying a
`table-tabs` container but no `class-summary` container makes
`scrape_package_doc` raise `UnboundLocalError` (the local `class_table` is
never assigned on that path) instead of returning a result, and the
uncaught exception aborts the whole crawl, including the healthy sibling
package that would have yielded `fooEntry`. -/
theorem claim_c2_crash :
    scrape_package_doc envCrash "https://x/p1/package-summary.html"
        = .error "UnboundLocalError: cannot access local variable class_table"
      ∧ scrape_javadoc envCrash "https://x/"
        = .error "UnboundLocalError: cannot access local variable class_table"
      ∧ (findDesc modernNoSummaryPage (isElemTC "div" "table-tabs")).isSome = true
      ∧ findDesc modernNoSummaryPage (isElemTagId "div" "class-summary") = none
      ∧ scrape_package_doc envCrash "https://x/p2/package-summary.html"
        = .ok (some [fooEntry]) :=
  ⟨rfl, rfl, rfl, rfl, rfl⟩

/-- Claim C8 (counterexample): On the tool's own example root URL the code
derives `javadoc.ix.23.md` — it joins the split components from index 4
on, i.e. it drops the first path segment (`javadoc`) — while the claim's
derivation (fixed literal `javadoc.`, then *all* non-empty path segments
after the host) yields `javadoc.javadoc.ix.23.md`. -/
theorem claim_c8_counterexample :
    output_file_name "https://forum.elo.com/javadoc/ix/23/" = "javadoc.ix.23.md"
      ∧ specFileName "https://forum.elo.com/javadoc/ix/23/" = "javadoc.javadoc.ix.23.md"
      ∧ output_file_name "https://forum.elo.com/javadoc/ix/23/"
          ≠ specFileName "https://forum.elo.com/javadoc/ix/23/" :=
  ⟨by decide, by decide, by decide⟩

/-- Claim C4 (amended): Transport failure on the package page returns
`None`; and on every execution that returns (rather than raising the
unbound-variable error) the result is `None` exactly when zero class
entries were produced, and otherwise the non-empty entry list itself (the
entries in anchor discovery order). -/
theorem claim_c4 (env : Env) (url : String) :
    (env url = none → scrape_package_doc env url = Except.ok none)
      ∧ ∀ soup, env url = some soup → ∀ r, scrape_package_doc env url = Except.ok r →
          ((r = none ↔ packageEntries env url soup = [])
            ∧ ∀ l, r = some l → l = packageEntries env url soup ∧ l ≠ []) := by
  constructor
  · intro h
    unfold scrape_package_doc
    rw [h]
  · intro soup hs r hr
    simp only [scrape_package_doc, hs] at hr
    cases hpt : packageTable soup with
    | none =>
      rw [hpt] at hr
      cases hr
    | some ot =>
      rw [hpt] at hr
      cases ot with
      | none =>
        have hrr : none = r := by injection hr
        subst hrr
        simp [packageEntries, hpt]
      | some tbl =>
        dsimp only at hr
        by_cases hc : (tableEntries env url (get_javadoc_format soup) tbl).isEmpty
        · rw [if_pos hc] at hr
          have hrr : none = r := by injection hr
          subst hrr
          rw [List.isEmpty_iff] at hc
          simp [packageEntries, hpt, hc]
        · rw [if_neg hc] at hr
          have hrr : some (tableEntries env url (get_javadoc_format soup) tbl) = r := by
            injection hr
          subst hrr
          rw [List.isEmpty_iff] at hc
          refine ⟨by simp [packageEntries, hpt, hc], ?_⟩
          intro l hl
          have hll : tableEntries env url (get_javadoc_format soup) tbl = l := by
            injection hl
          subst hll
          exact ⟨by simp [packageEntries, hpt], hc⟩

/-- Witness for C4: a package page with one class yields exactly its
non-empty entry list, and a package page whose only anchor has no `href`
yields zero entries, reported as `None`. -/
theorem claim_c4_witness :
    ([fooEntry] = packageEntries envHappy "https://h/pa/package-summary.html" legacyOneClassPage
        ∧ [fooEntry] ≠ [])
      ∧ packageEntries envHappy "https://h/nohref/package-summary.html" legacyNoHrefPage = [] := by
  have A := (claim_c4 envHappy "https://h/pa/package-summary.html").2 legacyOneClassPage rfl
    (some [fooEntry]) rfl
  have B := (claim_c4 envHappy "https://h/nohref/package-summary.html").2 legacyNoHrefPage rfl
    none rfl
  exact ⟨A.2 [fooEntry] rfl, B.1.mp rfl⟩

/-- Claim C4 (counterexample): On a modern-format package page without a
`class-summary` container, zero class entries are produced, yet the
extractor does not return `None`: it raises the unbound-variable error
instead of returning. -/
theorem claim_c4_counterexample :
    packageEntries envCrash "https://x/p1/package-summary.html" modernNoSummaryPage = []
      ∧ scrape_package_doc envCrash "https://x/p1/package-summary.html" ≠ Except.ok none
      ∧ scrape_package_doc envCrash "https://x/p1/package-summary.html"
          = Except.error "UnboundLocalError: cannot access local variable class_table" := by
  refine ⟨rfl, ?_, rfl⟩
  intro h
  rw [show scrape_package_doc envCrash "https://x/p1/package-summary.html"
      = Except.error "UnboundLocalError: cannot access local variable class_table" from rfl] at h
  cases h

/-- The values inserted by `dictInsert` stay non-empty: inserting a
non-empty value into a `Documentation` whose values are all non-empty
keeps every value non-empty (replacement and append alike). -/
theorem dictInsert_values (d : Documentation) (k : String) (v : List ClassEntry)
    (hd : ∀ pr ∈ d, pr.2 ≠ []) (hv : v ≠ []) :
    ∀ pr ∈ dictInsert d k v, pr.2 ≠ [] := by
  intro pr hpr
  unfold dictInsert at hpr
  by_cases hk : d.any (fun pr => pr.1 = k)
  · rw [if_pos hk] at hpr
    obtain ⟨q, hq, hqe⟩ := List.mem_map.mp hpr
    by_cases hqk : q.1 = k
    · rw [if_pos hqk] at hqe; rw [← hqe]; exact hv
    · rw [if_neg hqk] at hqe; rw [← hqe]; exact hd q hq
  · rw [if_neg hk] at hpr
    rcases List.mem_append.mp hpr with h | h
    · exact hd pr h
    · rw [List.mem_singleton] at h; rw [h]; exact hv

/-- One `crawlStep` preserves the all-values-non-empty invariant. -/
theorem crawlStep_invariant (env : Env) (base : String) (acc : Documentation) (x : Node)
    (acc' : Documentation) (hacc : ∀ pr ∈ acc, pr.2 ≠ [])
    (h : crawlStep env base acc x = Except.ok acc') :
    ∀ pr ∈ acc', pr.2 ≠ [] := by
  unfold crawlStep at h
  cases hh : nodeHref x with
  | none =>
    rw [hh] at h
    have : acc = acc' := by injection h
    exact this ▸ hacc
  | some u =>
    rw [hh] at h
    dsimp only at h
    cases hp : scrape_package_doc env (urljoin base u) with
    | error e =>
      rw [hp] at h
      cases h
    | ok o =>
      rw [hp] at h
      cases o with
      | none =>
        have : acc = acc' := by injection h
        exact this ▸ hacc
      | some classes =>
        dsimp only at h
        by_cases hc : classes.isEmpty
        · rw [if_pos hc] at h
          have : acc = acc' := by injection h
          exact this ▸ hacc
        · rw [if_neg hc] at h
          have : dictInsert acc (nodeText x) classes = acc' := by injection h
          rw [List.isEmpty_iff] at hc
          exact this ▸ dictInsert_values acc (nodeText x) classes hacc hc

/-- The whole crawl fold preserves the all-values-non-empty invariant. -/
theorem crawlFold_invariant (env : Env) (base : String) :
    ∀ (links : List Node) (acc : Documentation), (∀ pr ∈ acc, pr.2 ≠ []) →
      ∀ d, links.foldlM (crawlStep env base) acc = Except.ok d →
        ∀ pr ∈ d, pr.2 ≠ [] := by
  intro links
  induction links with
  | nil =>
    intro acc hacc d hd
    rw [List.foldlM_nil] at hd
    have : acc = d := by injection hd
    exact this ▸ hacc
  | cons x xs ih =>
    intro acc hacc d hd
    rw [List.foldlM_cons] at hd
    cases hstep : crawlStep env base acc x with
    | error e => rw [hstep] at hd; cases hd
    | ok acc' =>
      rw [hstep] at hd
      exact ih acc' (crawlStep_invariant env base acc x acc' hacc hstep) d hd

/-- Claim C5 (amended): A fetched root page with zero package-summary
anchors makes the crawler return `None`; on every execution that returns
rather than raising the unbound-variable error, a package loop that
produced the empty aggregate (no package yielded any class) also makes it
return `None`; and whenever the crawler returns an aggregate, it is
non-empty and every package key in it maps to a non-empty class list — an
empty aggregate is never returned in place of `None`. -/
theorem claim_c5 (env : Env) (base : String) :
    (∀ soup, env base = some soup → packageLinks soup = [] →
        scrape_javadoc env base = Except.ok none)
      ∧ (∀ soup, env base = some soup → (packageLinks soup).isEmpty = false →
          (packageLinks soup).foldlM (crawlStep env base) [] = Except.ok [] →
          scrape_javadoc env base = Except.ok none)
      ∧ ∀ doc, scrape_javadoc env base = Except.ok (some doc) →
          doc ≠ [] ∧ ∀ pr ∈ doc, pr.2 ≠ [] := by
  refine ⟨?_, ?_, ?_⟩
  · intro soup hs hl
    unfold scrape_javadoc
    rw [hs]
    dsimp only
    rw [hl]
    rfl
  · intro soup hs hl hfold
    unfold scrape_javadoc
    rw [hs]
    dsimp only
    rw [if_neg (by rw [hl]; simp), hfold]
    dsimp only
    rfl
  · intro doc hd
    unfold scrape_javadoc at hd
    cases hs : env base with
    | none =>
      rw [hs] at hd
      cases hd
    | some soup =>
      rw [hs] at hd
      dsimp only at hd
      by_cases hl : (packageLinks soup).isEmpty
      · rw [if_pos hl] at hd; cases hd
      · rw [if_neg hl] at hd
        cases hf : (packageLinks soup).foldlM (crawlStep env base) [] with
        | error e =>
          rw [hf] at hd
          cases hd
        | ok d0 =>
          rw [hf] at hd
          dsimp only at hd
          by_cases he : d0.isEmpty
          · rw [if_pos he] at hd; cases hd
          · rw [if_neg he] at hd
            have hdd : some d0 = some doc := by injection hd
            have hdd2 : d0 = doc := by injection hdd
            subst hdd2
            rw [List.isEmpty_iff] at he
            exact ⟨he,
              crawlFold_invariant env base (packageLinks soup) [] (by intro pr h; cases h) d0 hf⟩

/-- Witness for C5: the crawler returns `None` on a root page without
package anchors, returns `None` when its one package yields no class and
the loop completes, and on the happy-path environment the returned
aggregate is non-empty with non-empty values. -/
theorem claim_c5_witness :
    scrape_javadoc envHappy "https://h/empty/" = Except.ok none
      ∧ scrape_javadoc envHappy "https://h/noyield.html" = Except.ok none
      ∧ ([("pkg.a", [fooEntry])] ≠ []
          ∧ ∀ pr ∈ [("pkg.a", [fooEntry])], pr.2 ≠ ([] : List ClassEntry)) :=
  ⟨(claim_c5 envHappy "https://h/empty/").1 rootNoPkgsPage rfl rfl,
   (claim_c5 envHappy "https://h/noyield.html").2.1 rootNoYieldPage rfl rfl rfl,
   (claim_c5 envHappy "https://h/").2.2 [("pkg.a", [fooEntry])] rfl⟩

/-- Claim C5 (counterexample): in an environment whose single package
page is modern-format without a `class-summary` container, no package
yields any class, yet the crawler does not return `None` (nor any
aggregate): the unbound-variable error escapes `scrape_package_doc`, is
not caught by the `except requests.exceptions.RequestException` handler,
and the crawl raises instead of returning. -/
theorem claim_c5_counterexample :
    packageEntries envCrashSolo "https://y/p1/package-summary.html" modernNoSummaryPage = []
      ∧ scrape_javadoc envCrashSolo "https://y/"
          = Except.error "UnboundLocalError: cannot access local variable class_table"
      ∧ scrape_javadoc envCrashSolo "https://y/" ≠ Except.ok none := by
  refine ⟨rfl, rfl, ?_⟩
  intro h
  rw [show scrape_javadoc envCrashSolo "https://y/"
      = Except.error "UnboundLocalError: cannot access local variable class_table" from rfl] at h
  cases h

/-- Claim C8 (amended): For every root URL, the output file name is the
fixed literal `javadoc.` followed by the '.'-joined non-empty path
segments of the root URL after its host *excluding the first such
segment*, suffixed `.md`; and `save_markdown` falls back to the default
name `javadoc.md` when invoked without a name. -/
theorem claim_c8 (url : String) :
    output_file_name url
        = "javadoc."
          ++ String.intercalate "." (((specPathSegments url).drop 1).filter (· ≠ "")) ++ ".md"
      ∧ resolve_output_file none = "javadoc.md" := by
  constructor
  · unfold output_file_name specPathSegments
    rw [List.drop_drop]
  · rfl

/-- Claim C7 (counterexample): `clean_html` is not idempotent on text
input: each application re-parses its input as HTML and decodes character
references once more, so `clean_html "&amp;amp;"` is `"&amp;"` while a
second application turns that into `"&"`. -/
theorem claim_c7_counterexample :
    clean_html "&amp;amp;" = "&amp;"
      ∧ clean_html (clean_html "&amp;amp;") = "&"
      ∧ clean_html (clean_html "&amp;amp;") ≠ clean_html "&amp;amp;" :=
  ⟨by decide, by decide, by decide⟩

/-- Claim C7 (amended): The text cleaner is idempotent on text input free of
markup-significant characters: for every string containing no `&` and no
`<`, `clean_html (clean_html x) = clean_html x` (on such input the
re-parse of the second application is the identity, and the whitespace
pipeline itself is idempotent). -/
theorem claim_c7 (s : String) (h : ∀ c ∈ s.data, c ≠ '&' ∧ c ≠ '<') :
    clean_html (clean_html s) = clean_html s := by
  unfold clean_html
  rw [unescapeChars_id s.data (fun c hc => (h c hc).1)]
  have hfree : ∀ c ∈ cleanChars s.data, c ≠ '&' := by
    intro c hc
    rcases mem_cleanChars s.data c hc with h1 | h1
    · rw [h1]; decide
    · exact (h c h1).1
  have hdata : (⟨cleanChars s.data⟩ : String).data = cleanChars s.data := rfl
  rw [hdata, unescapeChars_id (cleanChars s.data) hfree, cleanChars_idem]

/-- Witness for C7 at a concrete markup-free string with collapsible
whitespace. -/
theorem claim_c7_witness :
    (∀ c ∈ "a  b c".data, c ≠ '&' ∧ c ≠ '<')
      ∧ clean_html (clean_html "a  b c") = clean_html "a  b c" :=
  ⟨by decide, claim_c7 "a  b c" (by decide)⟩

/-- Claim C9: The extractor's method list is the per-section extraction in
order, and for any method detail section — in particular one holding more
than one `Returns:` label span — the captured returns field is the cleaned
content of the `dd` following the *first* matching span (the head of the
document-ordered span list), while absence of any matching span yields the
empty string, never an error (`extractMethod` is total). -/
theorem claim_c9 (root : Node) (mp : List Nat) :
    ((extractClassDoc root).methods = (methodPaths root).map (extractMethod root))
      ∧ (1 < (labelSpans root mp "Returns:").length →
          (extractMethod root mp).returns
            = (match (labelSpans root mp "Returns:").head? with
               | some sp =>
                 (match findNextP root sp (isElemTag "dd") with
                  | some dp => cleanNode (nodeAtD root dp)
                  | none => "")
               | none => ""))
      ∧ (labelSpans root mp "Returns:" = [] → (extractMethod root mp).returns = "") := by
  have key : findP root mp (fun n => isElemTag "span" n && nodeString n == some "Returns:")
      = (labelSpans root mp "Returns:").head? := by
    unfold findP labelSpans
    exact find?_eq_head?_filter _ _
  refine ⟨?_, ?_, ?_⟩
  · unfold extractClassDoc methodPaths
    dsimp only
    cases hf : findP root [] (isElemTC "section" "method-details") with
    | none => rfl
    | some sp => rfl
  · intro _
    unfold extractMethod labelledDd
    dsimp only
    rw [key]
  · intro h0
    unfold extractMethod labelledDd
    dsimp only
    rw [key, h0]
    rfl

/-- Witness for C9 at a concrete page whose single method section holds
two `Returns:` spans: the first one's following `dd` is captured. -/
theorem claim_c9_witness :
    1 < (labelSpans twoReturnsPage [0, 0] "Returns:").length
      ∧ (extractMethod twoReturnsPage [0, 0]).returns = "first value" :=
  ⟨by decide, ((claim_c9 twoReturnsPage [0, 0]).2.1 (by decide)).trans (by decide)⟩

end EloJavadoc

-- Concrete evaluations of the embedding at the pages defined above.
example : EloJavadoc.clean_html "&amp;amp;" = "&amp;" := by decide
example : EloJavadoc.clean_html "&amp;" = "&" := by decide
example : EloJavadoc.clean_html "  hello   world  \n\n x " = "hello\nworld\nx" := by decide

open EloJavadoc in
example : extractClassDoc bareClassPage = emptyClassDoc := by decide

open EloJavadoc in
example : (extractClassDoc crossSectionPage).methods.map (·.returns) = ["later", ""] := by decide

open EloJavadoc in
example : (extractClassDoc crossSectionPage).methods.map (·.overrides) = ["", "later"] := by decide

open EloJavadoc in
example : (extractClassDoc twoReturnsPage).methods.map (·.returns) = ["first value"] := by decide

open EloJavadoc in
example : scrape_package_doc envCrash "https://x/p1/package-summary.html"
    = .error "UnboundLocalError: cannot access local variable class_table" := rfl

open EloJavadoc in
example : scrape_javadoc envCrash "https://x/"
    = .error "UnboundLocalError: cannot access local variable class_table" := rfl

open EloJavadoc in
example : scrape_javadoc envHappy "https://h/" = .ok (some [("pkg.a", [fooEntry])]) := rfl

open EloJavadoc in
example : scrape_javadoc envHappy "https://h/empty/" = .ok none := rfl

open EloJavadoc in
example : scrape_package_doc envHappy "https://h/nohref/package-summary.html" = .ok none := rfl

open EloJavadoc in
example : get_javadoc_format bothFormatsPage = "modern" := by decide

open EloJavadoc in
example : strCount (save_markdown [("pkg.a", [⟨"Foo", emptyClassDoc⟩])]) "pkga-foo" = 1 := by decide

open EloJavadoc in
example : strCount (save_markdown [("pkg.a", [⟨"Foo", emptyClassDoc⟩])]) "(#pkga-foo)" = 1 := by decide

open EloJavadoc in
example : output_file_name "https://forum.elo.com/javadoc/ix/23/" = "javadoc.ix.23.md" := by decide

open EloJavadoc in
example : specFileName "https://forum.elo.com/javadoc/ix/23/" = "javadoc.javadoc.ix.23.md" := by decide
